import Mathlib

/-!
Shallow embedding of `src/facebookStrategy.ts` (dashport-facebookstrategy).

JavaScript strings are modelled as `List Char` (`Str`). The pure string
helpers of the strategy class (`constructURI`, `parseCode`) are translated
directly; the stateful flow (`router`, `getAuthToken`, `getAuthData`) is
translated with the HTTP `fetch` behaviour supplied as an oracle (`Env`)
and with an explicit count of issued fetch calls. A JS value returned as
`new Error(...)` is modelled by `AuthResult.err` carrying the message; an
uncaught runtime exception (TypeError) is modelled by `Option.none`.
-/

namespace Facebook

/-- JavaScript strings, modelled as lists of characters. -/
abbrev Str := List Char

/-- Prefix test on JS strings (does `pat` start `s`): used to model `String.prototype.includes`
and `String.prototype.replace` (first-occurrence search). -/
def isPrefOf : Str → Str → Bool
  | [], _ => true
  | _ :: _, [] => false
  | p :: ps, c :: cs => p == c && isPrefOf ps cs

/-- Model of JS `s.includes(pat)`: does `pat` occur as a contiguous substring? -/
def containsSub (pat : Str) : Str → Bool
  | [] => isPrefOf pat []
  | c :: cs => isPrefOf pat (c :: cs) || containsSub pat cs

/-- Model of JS `s.replace(pat, rep)` with a string pattern: replaces the
first (leftmost) occurrence of `pat` by `rep`; returns `s` unchanged when
`pat` does not occur. -/
def replaceFirst (pat rep : Str) : Str → Str
  | [] => if isPrefOf pat [] then rep else []
  | c :: cs =>
    if isPrefOf pat (c :: cs) then rep ++ (c :: cs).drop pat.length
    else c :: replaceFirst pat rep cs

/-- Model of the `while (encodedCode.includes(p)) encodedCode = encodedCode.replace(p, r)`
loop of `parseCode` (src lines 98-100), with explicit fuel. Theorems below
show the fuel `s.length + 1` used by `decodeStep` is always sufficient, so
this computes the limit of the (terminating) JS while loop. -/
def replaceLoop (pat rep : Str) : Nat → Str → Str
  | 0, s => s
  | n + 1, s =>
    if containsSub pat s then replaceLoop pat rep n (replaceFirst pat rep s) else s

/-- The fixed percent-escape table of `parseCode` (src lines 82-93), in
source order of the object literal keys. -/
def replacements : List (Str × Str) :=
  [("%24".data, "$".data),
   ("%26".data, "&".data),
   ("%2B".data, "+".data),
   ("%2C".data, ",".data),
   ("%2F".data, "/".data),
   ("%3A".data, ":".data),
   ("%3B".data, ";".data),
   ("%3D".data, "=".data),
   ("%3F".data, "?".data),
   ("%40".data, "@".data)]

/-- One iteration of the `for` loop over the table keys (src lines 97-101):
exhaustively replace one escape sequence. -/
def decodeStep (s : Str) (e : Str × Str) : Str :=
  replaceLoop e.1 e.2 (s.length + 1) s

/-- Embedding of `parseCode` (src lines 81-104): for each table entry in order, replace
occurrences of the escape sequence until none remain. -/
def parseCode (encodedCode : Str) : Str :=
  replacements.foldl decodeStep encodedCode

/-- The loop body of `constructURI` (src lines 64-72): skip the entry whose
key equals `skip`, otherwise append `key + '=' + value + '&'`. -/
def uriStep (skip : Option Str) (acc : Str) (kv : Str × Str) : Str :=
  if some kv.1 = skip then acc else acc ++ kv.1 ++ ['='] ++ kv.2 ++ ['&']

/-- Embedding of `constructURI` (src lines 60-79). `Object.entries(options)` is modelled
as the insertion-ordered association list `params`; the final
`paramString[paramString.length - 1] === '&'` test and `slice(0, -1)` are
`getLast?` and `dropLast`. -/
def constructURI (params : List (Str × Str)) (skip : Option Str) : Str :=
  let paramString := params.foldl (uriStep skip) []
  if paramString.getLast? = some '&' then paramString.dropLast else paramString

/-- Spec-side description (spec 4.1 / 8): the `key=value` fragments that
should survive, in insertion order, with the skipped key removed. -/
def specPairs (params : List (Str × Str)) (skip : Option Str) : List Str :=
  (params.filter (fun kv => !decide (some kv.1 = skip))).map
    (fun kv => kv.1 ++ '=' :: kv.2)

/-- Spec-side description (spec 4.1 / 8): join fragments with a single `&`,
with no leading and no trailing separator. -/
def specJoin : List Str → Str
  | [] => []
  | [x] => x
  | x :: y :: xs => x ++ '&' :: specJoin (y :: xs)

/-- Concatenation of the fragments each followed by `&`: the intermediate
`paramString` shape. -/
def concatAmp : List Str → Str
  | [] => []
  | x :: xs => x ++ '&' :: concatAmp xs

/-- The raw `paramString` accumulated by the loop of `constructURI`. -/
def rawParams (skip : Option Str) : List (Str × Str) → Str
  | [] => []
  | kv :: rest =>
    (if some kv.1 = skip then [] else kv.1 ++ ['='] ++ kv.2 ++ ['&']) ++ rawParams skip rest

/-- A table is good when every pattern has length 3, every replacement is a
single character, and no replacement character occurs in any pattern of the
table. The concrete `replacements` table satisfies this (by `decide`). -/
abbrev goodTable (T : List (Str × Str)) : Prop :=
  ∀ e ∈ T, e.1.length = 3 ∧ e.2.length = 1 ∧ ∀ e2 ∈ T, ∀ ch ∈ e.2, ch ∉ e2.1

/-- Model of JS `s.split(sep)` for a one-character separator: the (always
non-empty) list of fragments between occurrences of `sep`. -/
def splitOnChar (sep : Char) : Str → List Str
  | [] => [[]]
  | c :: cs =>
    let r := splitOnChar sep cs
    if c = sep then [] :: r
    else
      match r with
      | [] => [[c]]
      | t :: ts => (c :: t) :: ts

/-- The `Options` object of `../types.ts` as used by this strategy: the four
required fields plus the optional ones the doc comment lists. `none` models
an absent (undefined) field. -/
structure Options where
  client_id : Option Str
  client_secret : Option Str
  redirect_uri : Option Str
  state : Option Str
  scope : Option Str
  response_type : Option Str
deriving DecidableEq

/-- JS falsiness of an optional string field: absent (`undefined`) or `''`. -/
def falsy (v : Option Str) : Bool :=
  match v with
  | none => true
  | some s => s.isEmpty

/-- The entries of an option field that `Object.entries` would yield
(absent fields produce no entry). -/
def optField (k : Str) (v : Option Str) : List (Str × Str) :=
  match v with
  | none => []
  | some s => [(k, s)]

/-- Model of `Object.entries(options)`, in the declaration order of the fields. -/
def optionEntries (o : Options) : List (Str × Str) :=
  optField "client_id".data o.client_id ++
  optField "client_secret".data o.client_secret ++
  optField "redirect_uri".data o.redirect_uri ++
  optField "state".data o.state ++
  optField "scope".data o.scope ++
  optField "response_type".data o.response_type

/-- The `tokenData` part of the `AuthData` record (fields are optional because the
JS code copies possibly-undefined fields from the parsed JSON). -/
structure TokenData where
  access_token : Option Str
  token_type : Option Str
  expires_in : Option Nat
deriving DecidableEq

/-- The `userInfo` part of the `AuthData` record. -/
structure UserInfo where
  provider : Str
  providerUserId : Str
deriving DecidableEq

/-- The normalized output record of the flow (src lines 164-174). -/
structure AuthData where
  tokenData : TokenData
  userInfo : UserInfo
deriving DecidableEq

/-- The JSON body of the token-exchange response, restricted to the fields
the code reads: `type`, `access_token`, `token_type`, `expires_in`. -/
structure TokenResponse where
  type : Option Str
  access_token : Option Str
  token_type : Option Str
  expires_in : Option Nat
deriving DecidableEq

/-- The nested `data` object of the identity-lookup response. -/
structure IdentData where
  user_id : Str
deriving DecidableEq

/-- The JSON body of the identity-lookup response (`data.user_id`). -/
structure IdentResponse where
  data : IdentData
deriving DecidableEq

/-- A value returned by `getAuthToken`/`getAuthData`: either a JS `Error`
object returned as an ordinary value (carrying its message) or the
completed `AuthData` record. -/
inductive AuthResult where
  | err : Str → AuthResult
  | ok : AuthData → AuthResult
deriving DecidableEq

/-- Oracle for the two outbound `fetch` + `.json()` round trips. The
token-exchange behaviour is a function of the decoded code, the
identity-lookup behaviour a function of the `input_token` field; an
`Except.error` models a rejected fetch or a failing JSON parse (the
`catch` branches). -/
structure Env where
  tokenResp : Str → Except Str TokenResponse
  identResp : Option Str → Except Str IdentResponse

def constructorErrMsg : Str :=
  "ERROR in FacebookStrategy constructor: Missing required arguments".data

def authDeniedMsg : Str :=
  "ERROR in getAuthToken: Received an error from auth token code request.".data

def oauthExceptionMsg : Str :=
  "ERROR in getAuthToken: Token request threw OAuth exception.".data

/-- The template string of src line 157 with the caught error appended. -/
def tokenFailMsg (e : Str) : Str :=
  "ERROR in getAuthToken: Unable to obtain token - ".data ++ e

/-- The template string of src line 193 with the caught error appended. -/
def authDataFailMsg (e : Str) : Str :=
  "ERROR in getAuthData: Unable to obtain auth data - ".data ++ e

def errorStr : Str := "error".data

def oAuthExceptionStr : Str := "oAuthException".data

def facebookName : Str := "facebook".data

def authURLStr : Str := "https://www.facebook.com/v9.0/dialog/oauth?".data

def tokenURLStr : Str := "https://graph.facebook.com/v9.0/oauth/access_token?".data

def authDataURLStr : Str := "https://graph.facebook.com/debug_token?".data

/-- The code-extraction step of `getAuthToken` (src lines 130-137):
`OGURI.split('=')`, index `[1]` (`none` models the `undefined` on which the
subsequent `.split('&')` throws an uncaught TypeError), `.split('&')`,
index `[0]`. -/
def extractRawCode (OGURI : Str) : Option Str :=
  let URI1 : List Str := splitOnChar '=' OGURI
  match URI1[1]? with
  | none => none
  | some rest =>
    let URI2 : List Str := splitOnChar '&' rest
    some (URI2.headD [])

/-- Embedding of `getAuthData` (src lines 163-195). The fetch URL
`authDataURL + constructURI({input_token, access_token: client_id|client_secret})`
is abstracted into the oracle, which receives the `input_token` value; the
second component counts the fetch calls issued (always 1 here). -/
def getAuthData (_opts : Options) (identResp : Option Str → Except Str IdentResponse)
    (parsed : TokenResponse) : AuthResult × Nat :=
  let authData : AuthData :=
    { tokenData :=
        { access_token := parsed.access_token
          token_type := parsed.token_type
          expires_in := parsed.expires_in }
      userInfo := { provider := [], providerUserId := [] } }
  match identResp authData.tokenData.access_token with
  | Except.error e => (AuthResult.err (authDataFailMsg e), 1)
  | Except.ok d =>
      (AuthResult.ok
        { authData with
          userInfo := { provider := facebookName, providerUserId := d.data.user_id } }, 1)

/-- Embedding of `getAuthToken` (src lines 123-159). The result is `none` on an uncaught
TypeError (query string with no `=`), otherwise `some (value, fetchCount)`
where `fetchCount` counts the outbound fetch calls issued. The token fetch
URL `tokenURL + constructURI(tokenOptions)` is abstracted into the oracle,
which receives the decoded code. -/
def getAuthToken (opts : Options) (env : Env) (search : Str) : Option (AuthResult × Nat) :=
  let OGURI : Str := search
  if containsSub errorStr OGURI then
    some (AuthResult.err authDeniedMsg, 0)
  else
    match extractRawCode OGURI with
    | none => none
    | some raw =>
      let code : Str := parseCode raw
      match env.tokenResp code with
      | Except.error e => some (AuthResult.err (tokenFailMsg e), 1)
      | Except.ok d =>
        if d.type = some oAuthExceptionStr then
          some (AuthResult.err oauthExceptionMsg, 1)
        else
          let r := getAuthData opts env.identResp d
          some (r.1, 1 + r.2)

/-- The strategy instance after a successful construction. -/
structure FacebookStrategy where
  name : Str
  options : Options
  uriFromParams : Str
  authURL : Str
  tokenURL : Str
  authDataURL : Str

/-- The constructor (src lines 45-58): throws when any of the four required
fields is falsy, otherwise builds the instance, precomputing
`uriFromParams = constructURI(options, 'client_secret')`. The constructor
performs no fetch (there is no `Env` argument). -/
def mkStrategy (options : Options) : Except Str FacebookStrategy :=
  if falsy options.client_id || falsy options.redirect_uri ||
      falsy options.state || falsy options.client_secret then
    Except.error constructorErrMsg
  else
    Except.ok
      { name := facebookName
        options := options
        uriFromParams := constructURI (optionEntries options) (some "client_secret".data)
        authURL := authURLStr
        tokenURL := tokenURLStr
        authDataURL := authDataURLStr }

/-- The observable outcome of `router` (src lines 107-112): redirect issued
by `authorize`, dispatch to `getAuthToken`, or fall-through (the JS
function returns `undefined`, silently dropping the request). -/
inductive RouteResult where
  | redirectTo : Str → RouteResult
  | dispatched : Option (AuthResult × Nat) → RouteResult
  | dropped : RouteResult
deriving DecidableEq

/-- Embedding of `router` (src lines 107-112): empty/absent query string means authorize
(redirect), a query string whose `slice(1, 5)` equals `'code'` is handed to
`getAuthToken`, anything else falls through. -/
def router (strat : FacebookStrategy) (env : Env) (search : Str) : RouteResult :=
  if search.isEmpty then
    RouteResult.redirectTo (strat.authURL ++ strat.uriFromParams)
  else if (search.drop 1).take 4 = "code".data then
    RouteResult.dispatched (getAuthToken strat.options env search)
  else
    RouteResult.dropped

/-- A concrete valid configuration, used by witnesses. -/
def optsEx : Options :=
  { client_id := some "cid".data
    client_secret := some "sec".data
    redirect_uri := some "ru".data
    state := some "st".data
    scope := none
    response_type := none }

/-- The strategy instance built from `optsEx`. -/
def stratEx : FacebookStrategy :=
  { name := facebookName
    options := optsEx
    uriFromParams := constructURI (optionEntries optsEx) (some "client_secret".data)
    authURL := authURLStr
    tokenURL := tokenURLStr
    authDataURL := authDataURLStr }

/-- An oracle whose fetches all fail; used where responses are irrelevant. -/
def envFail : Env :=
  ⟨fun _ => Except.error [], fun _ => Except.error []⟩

/-- The token response of the claim C1 scenario. -/
def tokenRespEx : TokenResponse :=
  { type := none
    access_token := some "T".data
    token_type := some "bearer".data
    expires_in := some 3600 }

/-- An oracle returning the C1 token and identity responses. -/
def envOk : Env :=
  ⟨fun _ => Except.ok tokenRespEx, fun _ => Except.ok ⟨⟨"U1".data⟩⟩⟩

theorem isPrefOf_nil_left (s : Str) : isPrefOf [] s = true := by
  cases s <;> rfl

theorem isPrefOf_le : ∀ p s : Str, isPrefOf p s = true → p.length ≤ s.length := by
  intro p
  induction p with
  | nil => intro s _; simp
  | cons a as ih =>
    intro s h
    cases s with
    | nil => simp [isPrefOf] at h
    | cons b bs =>
      simp only [isPrefOf, Bool.and_eq_true] at h
      simpa [Nat.succ_le_succ_iff] using ih bs h.2

theorem containsSub_nil_left (s : Str) : containsSub [] s = true := by
  cases s <;> simp [containsSub, isPrefOf_nil_left]

theorem ne_nil_of_not_containsSub {p s : Str} (h : containsSub p s = false) : p ≠ [] := by
  intro hp
  rw [hp, containsSub_nil_left] at h
  cases h

theorem containsSub_le : ∀ p s : Str, containsSub p s = true → p.length ≤ s.length := by
  intro p s
  induction s with
  | nil =>
    intro h
    simp only [containsSub] at h
    exact isPrefOf_le p [] h
  | cons c cs ih =>
    intro h
    simp only [containsSub, Bool.or_eq_true] at h
    rcases h with h | h
    · exact isPrefOf_le _ _ h
    · exact Nat.le_trans (ih h) (by simp)

theorem containsSub_cons_of (p : Str) (c : Char) (cs : Str)
    (h : containsSub p cs = true) : containsSub p (c :: cs) = true := by
  simp [containsSub, h]

theorem containsSub_of_drop : ∀ (k : Nat) (p s : Str),
    containsSub p (s.drop k) = true → containsSub p s = true := by
  intro k
  induction k with
  | zero => intro p s h; simpa using h
  | succ k ih =>
    intro p s h
    cases s with
    | nil => simpa using h
    | cons c cs => exact containsSub_cons_of p c cs (ih p cs (by simpa using h))

theorem replaceFirst_length : ∀ p r s : Str, containsSub p s = true →
    (replaceFirst p r s).length + p.length = s.length + r.length := by
  intro p r s
  induction s with
  | nil =>
    intro h
    simp only [containsSub] at h
    have hp : p = [] := by
      cases p with
      | nil => rfl
      | cons a as => simp [isPrefOf] at h
    subst hp
    simp [replaceFirst, isPrefOf_nil_left]
  | cons c cs ih =>
    intro h
    by_cases hpre : isPrefOf p (c :: cs) = true
    · have hle : p.length ≤ (c :: cs).length := isPrefOf_le _ _ hpre
      simp only [replaceFirst, hpre, if_true, List.length_append, List.length_drop]
      omega
    · have h2 : containsSub p cs = true := by
        simp only [containsSub, Bool.or_eq_true] at h
        tauto
      rw [show replaceFirst p r (c :: cs) = c :: replaceFirst p r cs from by
        simp [replaceFirst, hpre]]
      simp only [List.length_cons]
      have := ih h2
      omega

theorem isPrefOf_replaceFirst (p : Str) (c : Char) (hp : p ≠ []) :
    ∀ s q : Str, c ∉ q → isPrefOf q (replaceFirst p [c] s) = true → isPrefOf q s = true := by
  intro s
  induction s with
  | nil =>
    intro q hc h
    have hpf : isPrefOf p [] = false := by
      cases p with
      | nil => exact absurd rfl hp
      | cons a as => rfl
    simp only [replaceFirst, hpf, if_false] at h
    cases q with
    | nil => exact isPrefOf_nil_left _
    | cons b bs => simp [isPrefOf] at h
  | cons a as ih =>
    intro q hc h
    by_cases hpre : isPrefOf p (a :: as) = true
    · simp only [replaceFirst, hpre, if_true, List.singleton_append] at h
      cases q with
      | nil => exact isPrefOf_nil_left _
      | cons b bs =>
        simp only [isPrefOf, Bool.and_eq_true, beq_iff_eq] at h
        exact absurd (by rw [h.1]; exact List.mem_cons_self c bs) hc
    · simp only [replaceFirst, hpre, if_false] at h
      cases q with
      | nil => exact isPrefOf_nil_left _
      | cons b bs =>
        simp only [isPrefOf, Bool.and_eq_true, beq_iff_eq] at h ⊢
        exact ⟨h.1, ih bs (fun hm => hc (List.mem_cons_of_mem b hm)) h.2⟩

theorem containsSub_replaceFirst (p : Str) (c : Char) (hp : p ≠ []) :
    ∀ s q : Str, c ∉ q → containsSub q s = false →
      containsSub q (replaceFirst p [c] s) = false := by
  intro s
  induction s with
  | nil =>
    intro q hc h
    have hpf : isPrefOf p [] = false := by
      cases p with
      | nil => exact absurd rfl hp
      | cons a as => rfl
    simp only [replaceFirst, hpf, if_false]
    exact h
  | cons a as ih =>
    intro q hc h
    have hq : q ≠ [] := ne_nil_of_not_containsSub h
    have h1 : isPrefOf q (a :: as) = false ∧ containsSub q as = false := by
      simpa [containsSub, Bool.or_eq_false_iff] using h
    by_cases hpre : isPrefOf p (a :: as) = true
    · simp only [replaceFirst, hpre, if_true, List.singleton_append]
      have hdrop : containsSub q ((a :: as).drop p.length) = false := by
        cases hcd : containsSub q ((a :: as).drop p.length) with
        | false => rfl
        | true => exact absurd (containsSub_of_drop p.length q (a :: as) hcd) (by simp [h])
      simp only [containsSub, Bool.or_eq_false_iff]
      refine ⟨?_, hdrop⟩
      cases q with
      | nil => exact absurd rfl hq
      | cons b bs =>
        have hbc : (b == c) = false :=
          beq_eq_false_iff_ne.mpr (fun hbc => hc (by rw [← hbc]; exact List.mem_cons_self b bs))
        simp [isPrefOf, hbc]
    · simp only [replaceFirst, hpre, if_false]
      have h2 := ih q hc h1.2
      simp only [containsSub, Bool.or_eq_false_iff]
      refine ⟨?_, h2⟩
      cases hpf : isPrefOf q (a :: replaceFirst p [c] as) with
      | false => rfl
      | true =>
        have hpo : isPrefOf q (a :: as) = true := by
          refine isPrefOf_replaceFirst p c hp (a :: as) q hc ?_
          simp only [replaceFirst, hpre, if_false]
          exact hpf
        exact absurd hpo (by simp [h1.1])

theorem containsSub_replaceLoop_other (p : Str) (c : Char) (hp : p ≠ []) :
    ∀ (n : Nat) (s q : Str), c ∉ q → containsSub q s = false →
      containsSub q (replaceLoop p [c] n s) = false := by
  intro n
  induction n with
  | zero => intro s q _ h; simpa [replaceLoop] using h
  | succ n ih =>
    intro s q hc h
    by_cases hcs : containsSub p s = true
    · simp only [replaceLoop, hcs, if_true]
      exact ih _ q hc (containsSub_replaceFirst p c hp s q hc h)
    · simp only [replaceLoop, hcs, if_false]
      exact h

theorem replaceLoop_kills (p r : Str) (hp : p.length = 3) (hr : r.length = 1) :
    ∀ (n : Nat) (s : Str), s.length < n → containsSub p (replaceLoop p r n s) = false := by
  intro n
  induction n with
  | zero => intro s h; omega
  | succ n ih =>
    intro s hlt
    by_cases hcs : containsSub p s = true
    · simp only [replaceLoop, hcs, if_true]
      refine ih _ ?_
      have hlen := replaceFirst_length p r s hcs
      have hle := containsSub_le p s hcs
      omega
    · simp only [replaceLoop, hcs, if_false]
      simpa using hcs

theorem replaceLoop_fuel_irrelevant (p r : Str) (hp : p.length = 3) (hr : r.length = 1) :
    ∀ (n : Nat), ∀ (m : Nat) (s : Str), s.length < m → s.length < n →
      replaceLoop p r m s = replaceLoop p r n s := by
  intro n
  induction n with
  | zero => intro m s _ h; omega
  | succ n ih =>
    intro m s hm hn
    cases m with
    | zero => omega
    | succ m =>
      by_cases hcs : containsSub p s = true
      · simp only [replaceLoop, hcs, if_true]
        have hlen := replaceFirst_length p r s hcs
        have hle := containsSub_le p s hcs
        exact ih m (replaceFirst p r s) (by omega) (by omega)
      · simp [replaceLoop, hcs]

theorem foldl_decodeStep_id :
    ∀ (T : List (Str × Str)) (s : Str),
      (∀ e ∈ T, containsSub e.1 s = false) → T.foldl decodeStep s = s := by
  intro T
  induction T with
  | nil => intro s _; rfl
  | cons t T ih =>
    intro s h
    have ht : containsSub t.1 s = false := h t (List.mem_cons_self t T)
    have hstep : decodeStep s t = s := by
      simp [decodeStep, replaceLoop, ht]
    rw [List.foldl_cons, hstep]
    exact ih s (fun e he => h e (List.mem_cons_of_mem t he))

theorem foldl_decodeStep_preserves :
    ∀ (T : List (Str × Str)) (s q : Str),
      containsSub q s = false →
      (∀ e ∈ T, e.1 ≠ [] ∧ ∃ ch, e.2 = [ch] ∧ ch ∉ q) →
      containsSub q (T.foldl decodeStep s) = false := by
  intro T
  induction T with
  | nil => intro s q h _; exact h
  | cons t T ih =>
    intro s q h hT
    obtain ⟨hne, ch, hch, hmem⟩ := hT t (List.mem_cons_self t T)
    rw [List.foldl_cons]
    refine ih (decodeStep s t) q ?_ (fun e he => hT e (List.mem_cons_of_mem t he))
    rw [show decodeStep s t = replaceLoop t.1 [ch] (s.length + 1) s from by rw [decodeStep, hch]]
    exact containsSub_replaceLoop_other t.1 ch hne _ s q hmem h

theorem tableKills :
    ∀ T : List (Str × Str), goodTable T →
      ∀ (s : Str) (e : Str × Str), e ∈ T → containsSub e.1 (T.foldl decodeStep s) = false := by
  intro T
  induction T with
  | nil => intro _ s e he; cases he
  | cons t T ih =>
    intro hG s e he
    rw [List.foldl_cons]
    rcases List.mem_cons.mp he with rfl | heT
    · -- the head entry: its own loop kills it, the remaining entries preserve that
      obtain ⟨hp3, hr1, _⟩ := hG e (List.mem_cons_self e T)
      obtain ⟨c, hc⟩ := List.length_eq_one.mp hr1
      have hkilled : containsSub e.1 (decodeStep s e) = false := by
        rw [decodeStep]
        exact replaceLoop_kills e.1 e.2 hp3 hr1 (s.length + 1) s (Nat.lt_succ_self _)
      refine foldl_decodeStep_preserves T (decodeStep s e) e.1 hkilled ?_
      intro e2 he2
      obtain ⟨h23, h21, hdisj⟩ := hG e2 (List.mem_cons_of_mem e he2)
      obtain ⟨c2, hc2⟩ := List.length_eq_one.mp h21
      have hne2 : e2.1 ≠ [] := List.ne_nil_of_length_pos (by omega)
      refine ⟨hne2, c2, hc2, ?_⟩
      exact hdisj e (List.mem_cons_self e T) c2 (by rw [hc2]; exact List.mem_cons_self c2 [])
    · -- an entry of the tail: the tail table handles it
      refine ih ?_ (decodeStep s t) e heT
      intro e2 he2
      obtain ⟨h23, h21, hdisj⟩ := hG e2 (List.mem_cons_of_mem t he2)
      exact ⟨h23, h21, fun e3 he3 => hdisj e3 (List.mem_cons_of_mem t he3)⟩

theorem foldl_uriStep_eq (skip : Option Str) :
    ∀ (l : List (Str × Str)) (acc : Str), l.foldl (uriStep skip) acc = acc ++ rawParams skip l := by
  intro l
  induction l with
  | nil => intro acc; simp [rawParams]
  | cons kv rest ih =>
    intro acc
    simp only [List.foldl_cons, ih, rawParams, uriStep]
    by_cases h : some kv.1 = skip <;> simp [h, List.append_assoc]

theorem rawParams_eq_concatAmp (skip : Option Str) :
    ∀ l : List (Str × Str), rawParams skip l = concatAmp (specPairs l skip) := by
  intro l
  induction l with
  | nil => rfl
  | cons kv rest ih =>
    simp only [rawParams, specPairs, List.filter_cons]
    by_cases h : some kv.1 = skip
    · simpa [h, specPairs] using ih
    · simp [h, concatAmp, specPairs, List.append_assoc, ih]

theorem concatAmp_eq_specJoin_append :
    ∀ ps : List Str, ps ≠ [] → concatAmp ps = specJoin ps ++ ['&'] := by
  intro ps
  induction ps with
  | nil => intro h; exact absurd rfl h
  | cons x xs ih =>
    intro _
    cases xs with
    | nil => simp [concatAmp, specJoin]
    | cons y ys =>
      rw [show concatAmp (x :: y :: ys) = x ++ '&' :: concatAmp (y :: ys) from rfl,
          ih (by simp),
          show specJoin (x :: y :: ys) = x ++ '&' :: specJoin (y :: ys) from rfl]
      simp [List.append_assoc]

theorem getLast?_append_single (l : Str) (a : Char) : (l ++ [a]).getLast? = some a := by
  induction l with
  | nil => rfl
  | cons c cs ih =>
    rw [List.cons_append, List.getLast?_cons, ih]
    cases cs <;> simp [List.getLast?_cons]

theorem dropLast_append_single (l : Str) (a : Char) : (l ++ [a]).dropLast = l :=
  List.dropLast_concat

/-- C2: for every ordered string-to-string mapping `params` and optional
`skipKey`, `constructURI` returns exactly the non-skipped `key=value`
fragments joined by single `&` separators, in insertion order, with no
leading and no trailing separator; in particular it returns the empty
string on the empty mapping and on a single-entry mapping whose only key
is the skipped key. -/
theorem claim2_constructURI :
    (∀ (params : List (Str × Str)) (skip : Option Str),
        constructURI params skip = specJoin (specPairs params skip)) ∧
    (∀ skip : Option Str, constructURI [] skip = []) ∧
    (∀ k v : Str, constructURI [(k, v)] (some k) = []) := by
  have main : ∀ (params : List (Str × Str)) (skip : Option Str),
      constructURI params skip = specJoin (specPairs params skip) := by
    intro params skip
    simp only [constructURI]
    rw [foldl_uriStep_eq, List.nil_append, rawParams_eq_concatAmp]
    cases hps : specPairs params skip with
    | nil => simp [concatAmp, specJoin]
    | cons p ps =>
      rw [concatAmp_eq_specJoin_append (p :: ps) (by simp)]
      rw [getLast?_append_single]
      simp [dropLast_append_single]
  refine ⟨main, ?_, ?_⟩
  · intro skip
    rw [main]
    simp [specPairs, specJoin]
  · intro k v
    rw [main]
    simp [specPairs, specJoin]

/-- C3: `parseCode` implements table-driven percent-decoding: after decoding,
no occurrence of any of the ten escape sequences remains; any string
containing none of the ten sequences is returned unchanged; and the
concrete examples decode as `parseCode "%3D%26" = "=&"` and
`parseCode "%2C%2C" = ",,"` (each escape replaced by its literal
character, repeated occurrences included). -/
theorem claim3_parseCode :
    (∀ s : Str, (∀ e ∈ replacements, containsSub e.1 s = false) → parseCode s = s) ∧
    (∀ s : Str, ∀ e ∈ replacements, containsSub e.1 (parseCode s) = false) ∧
    parseCode "%3D%26".data = "=&".data ∧
    parseCode "%2C%2C".data = ",,".data := by
  refine ⟨?_, ?_, by decide, by decide⟩
  · intro s h
    exact foldl_decodeStep_id replacements s h
  · intro s e he
    exact tableKills replacements (by decide) s e he

/-- Witness for C3: a string with no escape sequence decodes to itself, and
a string with repeated `%3D` escapes contains none of them after decoding. -/
theorem claim3_witness :
    parseCode "abc123".data = "abc123".data ∧
    containsSub "%3D".data (parseCode "a%3D%3Db".data) = false :=
  ⟨claim3_parseCode.1 "abc123".data (by decide),
   claim3_parseCode.2.1 "a%3D%3Db".data ("%3D".data, "=".data) (by decide)⟩

/-- C9: `parseCode` terminates on every input and always returns a string:
when a 3-character escape occurs and is replaced by a 1-character literal,
the string strictly shortens by 2, so each inner while loop reaches (within
`s.length + 1` iterations, the fuel the embedding supplies) a string with
no remaining occurrence of the pattern, and the result is independent of
any larger fuel bound (the loop cannot run forever). -/
theorem claim9_termination :
    (∀ pat rep s : Str, pat.length = 3 → rep.length = 1 → containsSub pat s = true →
      (replaceFirst pat rep s).length + 2 = s.length) ∧
    (∀ (pat rep s : Str) (n : Nat), pat.length = 3 → rep.length = 1 → s.length < n →
      containsSub pat (replaceLoop pat rep n s) = false) ∧
    (∀ (pat rep s : Str) (m n : Nat), pat.length = 3 → rep.length = 1 →
      s.length < m → s.length < n → replaceLoop pat rep m s = replaceLoop pat rep n s) := by
  refine ⟨?_, ?_, ?_⟩
  · intro pat rep s hp hr hc
    have := replaceFirst_length pat rep s hc
    have := containsSub_le pat s hc
    omega
  · intro pat rep s n hp hr hn
    exact replaceLoop_kills pat rep hp hr n s hn
  · intro pat rep s m n hp hr hm hn
    exact replaceLoop_fuel_irrelevant pat rep hp hr n m s hm hn

/-- Witness for C9: the shortening and fixpoint facts at the concrete input
`"a%3D%3Db"` with the `%3D → =` table entry. -/
theorem claim9_witness :
    (replaceFirst "%3D".data "=".data "a%3D%3Db".data).length + 2 = ("a%3D%3Db".data).length ∧
    containsSub "%3D".data (replaceLoop "%3D".data "=".data 9 "a%3D%3Db".data) = false ∧
    replaceLoop "%3D".data "=".data 9 "a%3D%3Db".data =
      replaceLoop "%3D".data "=".data 12 "a%3D%3Db".data :=
  ⟨claim9_termination.1 "%3D".data "=".data "a%3D%3Db".data (by decide) (by decide) (by decide),
   claim9_termination.2.1 "%3D".data "=".data "a%3D%3Db".data 9 (by decide) (by decide) (by decide),
   claim9_termination.2.2 "%3D".data "=".data "a%3D%3Db".data 9 12 (by decide) (by decide)
     (by decide) (by decide)⟩

theorem splitOnChar_of_not_mem (sep : Char) :
    ∀ l : Str, sep ∉ l → splitOnChar sep l = [l] := by
  intro l
  induction l with
  | nil => intro _; rfl
  | cons c cs ih =>
    intro h
    have hc : ¬ c = sep := by
      intro hcs
      exact h (by rw [← hcs]; exact List.mem_cons_self c cs)
    have hcs2 : sep ∉ cs := fun hm => h (List.mem_cons_of_mem c hm)
    simp only [splitOnChar]
    rw [ih hcs2]
    simp [hc]

/-- C5: a raw query string containing the substring `error` makes
`getAuthToken` return the authorization-denied error value at once, with
zero outbound fetch calls. -/
theorem claim5_error_short_circuit (opts : Options) (env : Env) (search : Str)
    (h : containsSub errorStr search = true) :
    getAuthToken opts env search = some (AuthResult.err authDeniedMsg, 0) := by
  simp [getAuthToken, h]

/-- Witness for C5 at the query string `"?error=access_denied"`. -/
theorem claim5_witness :
    getAuthToken optsEx envFail "?error=access_denied".data =
      some (AuthResult.err authDeniedMsg, 0) :=
  claim5_error_short_circuit optsEx envFail "?error=access_denied".data (by decide)

/-- C6: when the token-exchange response has `type = "oAuthException"`,
`getAuthToken` returns the token-exchange error with exactly one fetch
issued, so `getAuthData` is never reached and no identity-lookup request
is made. -/
theorem claim6_oauth_exception (opts : Options) (env : Env) (search u : Str)
    (d : TokenResponse)
    (herr : containsSub errorStr search = false)
    (hsp : (splitOnChar '=' search)[1]? = some u)
    (htok : ∀ c : Str, env.tokenResp c = Except.ok d)
    (hty : d.type = some oAuthExceptionStr) :
    getAuthToken opts env search = some (AuthResult.err oauthExceptionMsg, 1) := by
  simp [getAuthToken, extractRawCode, herr, hsp, htok, hty]

/-- Witness for C6: an oAuthException token response on the callback
`"?code=abc"`. -/
theorem claim6_witness :
    getAuthToken optsEx
      ⟨fun _ => Except.ok ⟨some oAuthExceptionStr, none, none, none⟩,
       fun _ => Except.error []⟩ "?code=abc".data =
      some (AuthResult.err oauthExceptionMsg, 1) :=
  claim6_oauth_exception optsEx _ "?code=abc".data "abc".data
    ⟨some oAuthExceptionStr, none, none, none⟩
    (by decide) (by decide) (fun _ => rfl) rfl

/-- C1: end-to-end success. For a callback query string that does not
contain `error` and contains an `=` (as `?code=<c>...` does), if the
token-exchange fetch returns `{access_token:"T", token_type:"bearer",
expires_in:3600}` and the identity-lookup fetch returns
`{data:{user_id:"U1"}}`, then `getAuthToken` returns the `AuthData`
record with exactly those token fields and
`userInfo = {provider:"facebook", providerUserId:"U1"}` (after the two
fetches). -/
theorem claim1_end_to_end (opts : Options) (env : Env) (search u : Str)
    (herr : containsSub errorStr search = false)
    (hsp : (splitOnChar '=' search)[1]? = some u)
    (htok : ∀ c : Str, env.tokenResp c = Except.ok tokenRespEx)
    (hid : ∀ t : Option Str, env.identResp t = Except.ok ⟨⟨"U1".data⟩⟩) :
    getAuthToken opts env search =
      some (AuthResult.ok
        { tokenData :=
            { access_token := some "T".data
              token_type := some "bearer".data
              expires_in := some 3600 }
          userInfo := { provider := facebookName, providerUserId := "U1".data } }, 2) := by
  simp [getAuthToken, extractRawCode, getAuthData, herr, hsp, htok, hid, tokenRespEx,
    oAuthExceptionStr]

/-- Witness for C1 at the callback `"?code=abc"` with the oracle `envOk`. -/
theorem claim1_witness :
    getAuthToken optsEx envOk "?code=abc".data =
      some (AuthResult.ok
        { tokenData :=
            { access_token := some "T".data
              token_type := some "bearer".data
              expires_in := some 3600 }
          userInfo := { provider := facebookName, providerUserId := "U1".data } }, 2) :=
  claim1_end_to_end optsEx envOk "?code=abc".data "abc".data
    (by decide) (by decide) (fun _ => rfl) (fun _ => rfl)

/-- C4: on the callback query string `"?code=abc%3D123&state=xyz"` the
extraction step of `getAuthToken` (split on `=`, take index 1, split on
`&`, take index 0) yields the raw fragment `"abc%3D123"`, and `parseCode`
decodes it to `"abc=123"`. -/
theorem claim4_code_extraction :
    extractRawCode "?code=abc%3D123&state=xyz".data = some "abc%3D123".data ∧
    parseCode "abc%3D123".data = "abc=123".data := by
  exact ⟨by decide, by decide⟩

/-- Counterexample to C7: on the callback `"?error=access_denied"` (a query
string containing `error=...`), `router` falls through and returns
`undefined` — the request is silently dropped, not routed to
`getAuthToken`, so no AuthorizationDenied error value is surfaced. -/
theorem claim7_counterexample :
    router stratEx envFail "?error=access_denied".data = RouteResult.dropped ∧
    RouteResult.dropped ≠
      RouteResult.dispatched
        (getAuthToken stratEx.options envFail "?error=access_denied".data) := by
  exact ⟨by decide, by decide⟩

/-- C7 (amended): for a non-empty query string containing `error`, `router`
dispatches to `getAuthToken` — which surfaces the AuthorizationDenied
error value without issuing a fetch — exactly when `slice(1, 5)` of the
query string equals `code`; otherwise the request is silently dropped
(`router` returns `undefined`). -/
theorem claim7_amended_router (strat : FacebookStrategy) (env : Env) (q : Str)
    (hne : q.isEmpty = false) (herr : containsSub errorStr q = true) :
    ((q.drop 1).take 4 = "code".data →
      router strat env q =
        RouteResult.dispatched (some (AuthResult.err authDeniedMsg, 0))) ∧
    (¬ (q.drop 1).take 4 = "code".data → router strat env q = RouteResult.dropped) := by
  constructor
  · intro hcode
    rw [router, if_neg (by simp [hne]), if_pos hcode]
    rw [show getAuthToken strat.options env q = some (AuthResult.err authDeniedMsg, 0) from by
      simp [getAuthToken, herr]]
  · intro hcode
    rw [router, if_neg (by simp [hne]), if_neg hcode]

/-- Witness for the amended C7: `"?code=a&error=denied"` is dispatched and
surfaces the denial error; `"?state=1&error=denied"` is dropped. -/
theorem claim7_witness :
    router stratEx envFail "?code=a&error=denied".data =
      RouteResult.dispatched (some (AuthResult.err authDeniedMsg, 0)) ∧
    router stratEx envFail "?state=1&error=denied".data = RouteResult.dropped :=
  ⟨(claim7_amended_router stratEx envFail "?code=a&error=denied".data
      (by decide) (by decide)).1 (by decide),
   (claim7_amended_router stratEx envFail "?state=1&error=denied".data
      (by decide) (by decide)).2 (by decide)⟩

/-- C8: the constructor throws (synchronously — the embedding of the
constructor involves no fetch oracle at all) exactly when one of the four
required fields `client_id`, `client_secret`, `redirect_uri`, `state` is
absent or the empty string; with all four present and non-empty it
returns the constructed instance. -/
theorem claim8_constructor (o : Options) :
    ((∃ e, mkStrategy o = Except.error e) ↔
      (falsy o.client_id = true ∨ falsy o.client_secret = true ∨
       falsy o.redirect_uri = true ∨ falsy o.state = true)) ∧
    ((falsy o.client_id = false ∧ falsy o.client_secret = false ∧
      falsy o.redirect_uri = false ∧ falsy o.state = false) →
      ∃ s, mkStrategy o = Except.ok s) := by
  by_cases h : (falsy o.client_id || falsy o.redirect_uri ||
      falsy o.state || falsy o.client_secret) = true
  · have hm : mkStrategy o = Except.error constructorErrMsg := by
      simp [mkStrategy, h]
    have hd := h
    simp only [Bool.or_eq_true] at hd
    refine ⟨⟨fun _ => by tauto, fun _ => ⟨constructorErrMsg, hm⟩⟩, ?_⟩
    rintro ⟨h1, h2, h3, h4⟩
    simp [h1, h2, h3, h4] at hd
  · have hd := h
    simp only [Bool.or_eq_true, not_or, Bool.not_eq_true] at hd
    obtain ⟨⟨⟨hcid, hru⟩, hst⟩, hcs⟩ := hd
    refine ⟨⟨?_, ?_⟩, ?_⟩
    · rintro ⟨e, he⟩
      simp [mkStrategy, h] at he
    · intro hor
      rcases hor with h1 | h1 | h1 | h1
      · simp [h1] at hcid
      · simp [h1] at hcs
      · simp [h1] at hru
      · simp [h1] at hst
    · intro _
      refine ⟨{ name := facebookName
                options := o
                uriFromParams := constructURI (optionEntries o) (some "client_secret".data)
                authURL := authURLStr
                tokenURL := tokenURLStr
                authDataURL := authDataURLStr }, ?_⟩
      simp [mkStrategy, h]

/-- Witness for C8: construction succeeds on a full configuration and
fails when `client_id` is the empty string. -/
theorem claim8_witness :
    (∃ s, mkStrategy optsEx = Except.ok s) ∧
    (∃ e, mkStrategy { optsEx with client_id := some [] } = Except.error e) :=
  ⟨(claim8_constructor optsEx).2 (by decide),
   ((claim8_constructor { optsEx with client_id := some [] }).1).mpr
     (Or.inl (by decide))⟩

/-- C10: a query string with no `=` (and not containing `error`) makes
`getAuthToken` evaluate `URI1[1].split('&')` on `undefined` and crash with
an uncaught TypeError (modelled by `none`) instead of returning an error
value; `router` still dispatches `"?code"` (whose `slice(1, 5)` is
`code`) into this crash. -/
theorem claim10_missing_eq_crash :
    (∀ (opts : Options) (env : Env) (search : Str),
        containsSub errorStr search = false → '=' ∉ search →
        getAuthToken opts env search = none) ∧
    (∀ (strat : FacebookStrategy) (env : Env),
        router strat env "?code".data = RouteResult.dispatched none) := by
  have main : ∀ (opts : Options) (env : Env) (search : Str),
      containsSub errorStr search = false → '=' ∉ search →
      getAuthToken opts env search = none := by
    intro opts env search herr heq
    simp [getAuthToken, herr, extractRawCode, splitOnChar_of_not_mem '=' search heq]
  refine ⟨main, ?_⟩
  intro strat env
  have h := main strat.options env "?code".data (by decide) (by decide)
  rw [router, if_neg (by decide), if_pos (by decide), h]

/-- Witness for C10 at the query string `"?code"`. -/
theorem claim10_witness :
    getAuthToken optsEx envFail "?code".data = none :=
  claim10_missing_eq_crash.1 optsEx envFail "?code".data (by decide) (by decide)

end Facebook
